import Mathlib

/-!
Verification of the CPU-mark lookup engine of `marklookup/get_mark_of_cpu.py`
(repository emmausconnect/cpumarks).

The Python code is shallowly embedded as executable Lean functions.
Strings are handled at the `List Char` level so that every function is
structurally recursive and evaluates inside the kernel.  Python `set`s of
strings are modelled as `Finset String`, Python `dict`s as association lists
with in-place-update insertion (Python dicts preserve insertion order and
update values in place).  ASCII inputs are assumed: the Python regular
expression classes `\d` and `\w` are modelled by their ASCII fragments, which
agree with Python on every string appearing in the reference data.
-/

/-- The separator class of the tokenizer regex `[ \-;,@]+` (line 93). -/
def isSepC (c : Char) : Bool :=
  c == ' ' || c == '-' || c == ';' || c == ',' || c == '@'

/-- The ASCII whitespace characters removed by Python `str.strip()`. -/
def isStripC (c : Char) : Bool :=
  c == ' ' || c == '\t' || c == '\n' || c == '\r' || c == '\x0b' || c == '\x0c'

/-- Python `\w` word characters (ASCII fragment). -/
def isWordC (c : Char) : Bool :=
  c.isAlphanum || c == '_'

/-- Python substring containment `pat in s`. -/
def containsSub (pat : List Char) : List Char → Bool
  | [] => pat.isEmpty
  | c :: rest => pat.isPrefixOf (c :: rest) || containsSub pat rest

/-- The part of `s` before the first occurrence of `pat`:
Python `s.split(pat)[0]` for a non-empty `pat`. -/
def takeUntil (pat : List Char) : List Char → List Char
  | [] => []
  | c :: rest => if pat.isPrefixOf (c :: rest) then [] else c :: takeUntil pat rest

/-- Python `str.strip()`. -/
def stripWs (s : List Char) : List Char :=
  ((s.dropWhile isStripC).reverse.dropWhile isStripC).reverse

/-- Replacement of every (left-to-right, non-overlapping) occurrence of `pat`
by `rep`, fuelled so that the recursion is structural.  For a non-empty `pat`
every step consumes at least one input character, hence fuel `s.length`
(see `replaceList`) makes this Python `s.replace(pat, rep)`. -/
def replaceAux (pat rep : List Char) : Nat → List Char → List Char
  | _, [] => []
  | 0, s => s
  | fuel + 1, c :: rest =>
    if pat.isPrefixOf (c :: rest) then
      rep ++ replaceAux pat rep fuel ((c :: rest).drop pat.length)
    else
      c :: replaceAux pat rep fuel rest

/-- Python `s.replace(pat, rep)` for non-empty `pat`. -/
def replaceList (pat rep s : List Char) : List Char :=
  replaceAux pat rep s.length s

/-- String wrapper for `replaceList`. -/
def replaceS (s pat rep : String) : String :=
  ⟨replaceList pat.data rep.data s.data⟩

/-- String wrapper for `takeUntil`. -/
def takeUntilS (s pat : String) : String :=
  ⟨takeUntil pat.data s.data⟩

/-- String wrapper for `stripWs`. -/
def stripS (s : String) : String :=
  ⟨stripWs s.data⟩

/-- Does the string begin with a vendor marker (`Intel` or `AMD`)? -/
def vendorHead (s : List Char) : Bool :=
  "Intel".data.isPrefixOf s || "AMD".data.isPrefixOf s

/-- The suffix kept by `re.match(r'.*(?P<keep>(Intel|AMD).*)', cx)` (line 119).
The leading `.*` is greedy, so backtracking stops at the *last* position where
`Intel` or `AMD` begins; the recursion below prefers the result found in the
tail for exactly that reason. -/
def vendorKeep : List Char → Option (List Char)
  | [] => none
  | c :: rest =>
    match vendorKeep rest with
    | some k => some k
    | none => if vendorHead (c :: rest) then some (c :: rest) else none

/-- Modelled from the spec (claim C5): the spec-side vendor step, which keeps
the suffix from the *first* occurrence of a vendor marker.  This definition
follows the spec words and exists only to be compared with `vendorKeep`,
the embedding of the code. -/
def vendorFirst : List Char → Option (List Char)
  | [] => none
  | c :: rest =>
    if vendorHead (c :: rest) then some (c :: rest) else vendorFirst rest

/-- Lines 119-121: replace `cx` by the kept suffix when the regex matches. -/
def vendorStep (s : String) : String :=
  match vendorKeep s.data with
  | some k => ⟨k⟩
  | none => s

/-- The group of `re.match(r'.*(?P<model>[A-Z]\d{1,4}).*', x)` (line 164):
an ASCII uppercase letter followed by one to four digits (greedily many),
taken at the last position where the group can start (greedy leading `.*`). -/
def modelAt : List Char → Option (List Char)
  | [] => none
  | c :: rest =>
    match modelAt rest with
    | some m => some m
    | none =>
      if c.isUpper && (match rest with | [] => false | d :: _ => d.isDigit) then
        some (c :: (rest.takeWhile (·.isDigit)).take 4)
      else none

/-- Maximal runs of non-separator characters, accumulator-based so the
recursion is structural.  This is `re.split(r'[ \-;,@]+', k)` (line 93)
composed with the `if not t: continue` filter of lines 97-99: the empty
chunks Python's `re.split` can produce are dropped on the spot. -/
def tokensGo : List Char → List Char → List (List Char)
  | cur, [] => if cur.isEmpty then [] else [cur.reverse]
  | cur, c :: rest =>
    if isSepC c then
      if cur.isEmpty then tokensGo [] rest else cur.reverse :: tokensGo [] rest
    else
      tokensGo (c :: cur) rest

/-- The non-empty tokens of a name, in order. -/
def splitToks (s : List Char) : List (List Char) :=
  tokensGo [] s

/-- `re.match(r'^(?P<D>\d+)$', t)`: the token is one or more digits. -/
def pureDigits (t : List Char) : Bool :=
  !t.isEmpty && t.all (·.isDigit)

/-- `re.match(r'^(?P<D>\d+)(?P<L>\w+)$', t)` for a token that is not purely
numeric: the greedy `\d+` takes the maximal digit run and `\w+` must cover the
non-empty remainder.  (For a purely numeric token the branch of line 101 wins
before this match is consulted, so returning `none` there is unobservable.) -/
def decompose (t : List Char) : Option (List Char × List Char) :=
  let d := t.takeWhile (·.isDigit)
  let l := t.dropWhile (·.isDigit)
  if !d.isEmpty && !l.isEmpty && l.all isWordC then some (d, l) else none

/-- Python `'Duo' in t` (line 98). -/
def containsDuo (t : List Char) : Bool :=
  containsSub "Duo".data t

/-- The per-token body of the loop of `_keytoset` (lines 97-106): skip empty
and `Duo` tokens; keep purely numeric and non-`digits+letters` tokens whole;
otherwise add the digit run and each character of the trailing word run. -/
def tokStep (s : Finset String) (t : List Char) : Finset String :=
  if t.isEmpty || containsDuo t then s
  else
    match decompose t with
    | none => insert (String.mk t) s
    | some (d, l) =>
      if pureDigits t then insert (String.mk t) s
      else insert (String.mk d) s ∪ (l.map (fun c => String.mk [c])).toFinset

/-- `CpuAssessor._keytoset` (lines 91-107). -/
def keytoset (k : String) : Finset String :=
  (splitToks k.data).foldl tokStep ∅

/-- Space-joined sorted elements of a token set (the left-hand input of the
idempotence property of the spec). -/
def joinSpace : List (List Char) → List Char
  | [] => []
  | [t] => t
  | t :: rest => t ++ ' ' :: joinSpace rest

/-- Join the sorted elements of a token set with single spaces. -/
def joinSorted (s : Finset String) : String :=
  ⟨joinSpace ((s.sort (· ≤ ·)).map String.data)⟩

/-- `CpuAssessor.MatchStep` (lines 30-45). -/
inductive MatchStep
  | FAILED
  | SIMPLE_0
  | SIMPLE_1
  | SIMPLE_2
  | SIMPLE_3
  | CLEVER_1
  | CLEVER_2
  | CLEVER_3_1
  | CLEVER_3_2
  | DESPERATE_1
  deriving DecidableEq

/-- `MatchStep.name` of the Python enum. -/
def MatchStep.name : MatchStep → String
  | .FAILED => "FAILED"
  | .SIMPLE_0 => "SIMPLE_0"
  | .SIMPLE_1 => "SIMPLE_1"
  | .SIMPLE_2 => "SIMPLE_2"
  | .SIMPLE_3 => "SIMPLE_3"
  | .CLEVER_1 => "CLEVER_1"
  | .CLEVER_2 => "CLEVER_2"
  | .CLEVER_3_1 => "CLEVER_3_1"
  | .CLEVER_3_2 => "CLEVER_3_2"
  | .DESPERATE_1 => "DESPERATE_1"

/-- A value of `CpuAssessor.__marks`: `(mark, sourceLine)`. -/
abbrev MarkEntry := Int × Nat

/-- `CpuAssessor.__marks` as an insertion-ordered association list. -/
abbrev Marks := List (String × MarkEntry)

/-- Python dict assignment `d[k] = v`: update in place, else append. -/
def dictInsert {α : Type} : List (String × α) → String → α → List (String × α)
  | [], k, v => [(k, v)]
  | (k2, v2) :: rest, k, v =>
    if k2 = k then (k, v) :: rest else (k2, v2) :: dictInsert rest k v

/-- Python `d.get(k)`. -/
def dictGet {α : Type} : List (String × α) → String → Option α
  | [], _ => none
  | (k2, v) :: rest, k => if k2 = k then some v else dictGet rest k

/-- A CSV row as produced by `csv.DictReader`: column name to cell value. -/
abbrev Row := List (String × String)

/-- Lines 62-71: resolve the name column through the alias chain
`name`, `NAME`, `CPUNAME` (the nested `try`/`except KeyError`). -/
def getName (r : Row) : Option String :=
  match dictGet r "name" with
  | some v => some v
  | none =>
    match dictGet r "NAME" with
    | some v => some v
    | none => dictGet r "CPUNAME"

/-- Lines 73-79: resolve the mark column through `cpumark`, `CPUMARK`. -/
def getMarkCol (r : Row) : Option String :=
  match dictGet r "cpumark" with
  | some v => some v
  | none => dictGet r "CPUMARK"

/-- Line 72: `'Intel' in nam or 'AMD' in nam`. -/
def isVendor (nam : String) : Bool :=
  containsSub "Intel".data nam.data || containsSub "AMD".data nam.data

/-- The exceptions that abort `CpuAssessor.init`:
`nameColumn` is `RuntimeError("Unable to guess which column has the name of the CPU")`,
`markColumn` is `RuntimeError("Unable to guess which column has the mark of the CPU")`,
`markParse v` is the `ValueError` raised by `int(v)` on a non-numeric mark. -/
inductive BuildErr
  | nameColumn
  | markColumn
  | markParse (value : String)
  deriving DecidableEq

/-- Value of an ASCII digit run. -/
def digitsToNat (l : List Char) : Nat :=
  l.foldl (fun a c => a * 10 + (c.toNat - 48)) 0

/-- Python `int(m)` on a string: surrounding whitespace, an optional sign and
a non-empty ASCII digit run (Python additionally accepts Unicode digits and
underscore group separators, which never occur in the reference data). -/
def parseIntMark (m : String) : Option Int :=
  match stripWs m.data with
  | '-' :: rest =>
    if !rest.isEmpty && rest.all (·.isDigit) then some (-(digitsToNat rest : Int)) else none
  | '+' :: rest =>
    if !rest.isEmpty && rest.all (·.isDigit) then some (digitsToNat rest : Int) else none
  | s =>
    if !s.isEmpty && s.all (·.isDigit) then some (digitsToNat s : Int) else none

/-- The row loop of `CpuAssessor.init` (lines 60-81): resolve the name column
(raising on failure), keep only vendor-qualified rows, resolve and parse the
mark (an unparsable mark raises `ValueError`, which nothing catches), store
`(int(m), line)` under the raw name, and count lines from 2. -/
def buildAux : List Row → Nat → Marks → Except BuildErr Marks
  | [], _, acc => .ok acc
  | r :: rest, line, acc =>
    match getName r with
    | none => .error .nameColumn
    | some nam =>
      if isVendor nam then
        match getMarkCol r with
        | none => .error .markColumn
        | some m =>
          match parseIntMark m with
          | none => .error (.markParse m)
          | some mk => buildAux rest (line + 1) (dictInsert acc nam (mk, line))
      else
        buildAux rest (line + 1) acc

/-- `CpuAssessor.init` applied to the parsed rows of the marks file. -/
def buildMarks (rows : List Row) : Except BuildErr Marks :=
  buildAux rows 2 []

/-- `k.split('@')[0].strip()` (line 83). -/
def noatKey (k : String) : String :=
  stripS (takeUntilS k "@")

/-- `CpuAssessor.__marksnoat` (line 83): the dict comprehension over the keys
of `__marks` that contain an `@`. -/
def marksnoat (marks : Marks) : Marks :=
  marks.foldl
    (fun acc kv =>
      if containsSub "@".data kv.1.data then dictInsert acc (noatKey kv.1) kv.2 else acc)
    []

/-- `CpuAssessor.__markswithsets` (lines 84-85): every key with its token set
and mark entry, in insertion order. -/
def markswithsets (marks : Marks) : List (String × Finset String × MarkEntry) :=
  marks.map (fun kv => (kv.1, keytoset kv.1, kv.2))

/-- Lines 115-117 (also line 141): drop the literal markers `(R)`, `(TM)`
and ` CPU`. -/
def stripMarkers (x : String) : String :=
  replaceS (replaceS (replaceS x "(R)" "") "(TM)" "") " CPU" ""

/-- Normalizer steps 1-4 (lines 115-123): strip markers, keep from the vendor
marker, cut at `w/` and strip, cut at the first comma. -/
def normalize14 (x : String) : String :=
  takeUntilS (stripS (takeUntilS (vendorStep (stripMarkers x)) "w/")) ","

/-- Lines 127-128: an `AMD`-prefixed normalized string is additionally cut at
`' with'`. -/
def amdWithStep (cx : String) : String :=
  if "AMD".data.isPrefixOf cx.data then takeUntilS cx " with" else cx

/-- Line 141: the raw query with only the three literal markers removed. -/
def strippedQuery (x : String) : String :=
  stripMarkers x

/-- Line 142: `mys`, the token set of the stripped query. -/
def queryToks (x : String) : Finset String :=
  keytoset (strippedQuery x)

/-- Line 147: `threshold2 = 3 if 'AMD' in x else 4` (on the stripped query). -/
def threshold2 (x : String) : Nat :=
  if containsSub "AMD".data (strippedQuery x).data then 3 else 4

/-- Line 143: keys whose token set is a subset of `mys`. -/
def candidates1 (marks : Marks) (x : String) : List String :=
  ((markswithsets marks).filter (fun kv => kv.2.1 ⊆ queryToks x)).map (·.1)

/-- Line 148: keys whose token-set intersection with `mys` has size at least
`threshold2`. -/
def candidates2 (marks : Marks) (x : String) : List String :=
  ((markswithsets marks).filter (fun kv => threshold2 x ≤ (queryToks x ∩ kv.2.1).card)).map (·.1)

/-- Line 152: the `candidates2` entries whose token set strictly contains
`mys`. -/
def candidates3 (marks : Marks) (x : String) : List String :=
  (candidates2 marks x).filter (fun k => queryToks x ⊂ keytoset k)

/-- Lines 156-160: the first `candidates3` entry whose `@`-stripped token set
equals `mys`. -/
def clever32find (marks : Marks) (x : String) : Option String :=
  (candidates3 marks x).find? (fun c => decide (keytoset (stripS (takeUntilS c "@")) = queryToks x))

/-- Lines 164-166: the extracted model code, if any. -/
def modelCode (x : String) : Option String :=
  (modelAt (strippedQuery x).data).map (fun l => ⟨l⟩)

/-- Lines 167 and 172: keys whose token set contains the model code, empty
when no model code matches. -/
def candidates4 (marks : Marks) (x : String) : List String :=
  match modelCode x with
  | none => []
  | some mdl => ((markswithsets marks).filter (fun kv => mdl ∈ kv.2.1)).map (·.1)

/-- One entry of the diagnostic list `det` (line 174).  The Python code
formats these as f-strings; the entries are modelled structurally (the
rendered text of a Python `set` is not even deterministic across runs), which
keeps exactly the information the spec names: the computed token set and each
intermediate candidate list. -/
inductive Diag
  | toksEntry (x : String) (toks : Finset String)
  | candsEntry (cands : List String)
  deriving DecidableEq

/-- The diagnostic list built at line 174 in the FAILED case. -/
def failDet (marks : Marks) (x : String) : List Diag :=
  [ .toksEntry (strippedQuery x) (queryToks x),
    .candsEntry (candidates1 marks x),
    .candsEntry (candidates2 marks x),
    .candsEntry (candidates3 marks x),
    .candsEntry (candidates4 marks x) ]

/-- The candidate list a candidate-set tier decides on. -/
def candsOf (marks : Marks) (x : String) : MatchStep → List String
  | .CLEVER_1 => candidates1 marks x
  | .CLEVER_2 => candidates2 marks x
  | .CLEVER_3_1 => candidates3 marks x
  | .DESPERATE_1 => candidates4 marks x
  | _ => []

/-- `CpuAssessor._nmatch` (lines 109-175).  Returns
`(mark, (step, sourceLine, matchedName), diagnostics)`.  Python truthiness
`if ret[0]:` is `≠ 0` on the integer mark.  In the DESPERATE branch the code
sets `candidates4 = []` when the model regex fails; `candidates4` here is that
same list (empty exactly in that case), so the single length test below covers
both arms of lines 165-172. -/
def nmatch (marks : Marks) (x : String) : Int × (MatchStep × Nat × String) × List Diag :=
  let ret0 := (dictGet (marksnoat marks) x).getD (0, 0)
  if ret0.1 ≠ 0 then (ret0.1, (.SIMPLE_0, ret0.2, x), [])
  else
    let cx := normalize14 x
    let ret1 := (dictGet marks cx).getD (0, 0)
    if ret1.1 ≠ 0 then (ret1.1, (.SIMPLE_1, ret1.2, cx), [])
    else
      let cx2 := amdWithStep cx
      let ret2 := (dictGet marks cx2).getD (0, 0)
      if ret2.1 ≠ 0 then (ret2.1, (.SIMPLE_2, ret2.2, cx2), [])
      else
        let ret3 := (dictGet (marksnoat marks) cx2).getD (0, 0)
        if ret3.1 ≠ 0 then (ret3.1, (.SIMPLE_3, ret3.2, cx2), [])
        else
          let c1 := candidates1 marks x
          if c1.length = 1 then
            let r := (dictGet marks (c1.headD "")).getD (0, 0)
            (r.1, (.CLEVER_1, r.2, c1.headD ""), [])
          else
            let c2 := candidates2 marks x
            if c2.length = 1 then
              let r := (dictGet marks (c2.headD "")).getD (0, 0)
              (r.1, (.CLEVER_2, r.2, c2.headD ""), [])
            else
              let c3 := candidates3 marks x
              if c3.length = 1 then
                let r := (dictGet marks (c3.headD "")).getD (0, 0)
                (r.1, (.CLEVER_3_1, r.2, c3.headD ""), [])
              else
                match clever32find marks x with
                | some c =>
                  let r := (dictGet marks c).getD (0, 0)
                  (r.1, (.CLEVER_3_2, r.2, c), [])
                | none =>
                  let c4 := candidates4 marks x
                  if c4.length = 1 then
                    let r := (dictGet marks (c4.headD "")).getD (0, 0)
                    (r.1, (.DESPERATE_1, r.2, c4.headD ""), [])
                  else
                    (0, (.FAILED, 0, ""), failDet marks x)

/-- The aggregate state of the `CpuAssessor.test` loop (lines 191-233).
Python floats are modelled as rationals. -/
structure TestAgg where
  nhit : Nat
  nmiss : Nat
  ncorrect : Nat
  nfalse : Nat
  weird : Nat
  stats : MatchStep → Nat
  failures : List String
  missed : List (String × List (ℚ × String))

/-- Python `int()` on a float value: truncation toward zero.  A rational is
`num / den` in lowest terms with positive denominator, and `Int.div`
truncates toward zero. -/
def truncQ (q : ℚ) : ℤ :=
  Int.tdiv q.num (q.den : ℤ)

/-- Python `min` of a non-empty list (total here; Python raises on `[]`,
which no caller reaches because an empty observation list already raises at
the preceding division). -/
def minQ : List ℚ → ℚ
  | [] => 0
  | h :: t => t.foldl min h

/-- Python `max` of a non-empty list, as `minQ`. -/
def maxQ : List ℚ → ℚ
  | [] => 0
  | h :: t => t.foldl max h

/-- One iteration of the loop of `CpuAssessor.test` (lines 196-233) on the
pair `(nam, ourmarks)`.  Logging and `print` calls are side effects without
algorithmic content and are omitted; divisions are total on `ℚ` (Python would
raise `ZeroDivisionError` when a truncated aggregate is zero, a case no claim
touches). -/
def classifyStep (marks : Marks) (threshold : ℚ) (acc : TestAgg)
    (p : String × List (ℚ × String)) : TestAgg :=
  let r := nmatch marks p.1
  let ma := r.1
  let meth := r.2.1.1
  let acc := { acc with stats := fun s => if s = meth then acc.stats s + 1 else acc.stats s }
  let acc := if meth = MatchStep.FAILED then { acc with failures := acc.failures ++ [p.1] } else acc
  if ma ≠ 0 then
    let lmarks := p.2.map (·.1)
    let avg : ℤ := truncQ (lmarks.sum / (p.2.length : ℚ))
    let mn : ℤ := truncQ (minQ lmarks)
    let mx : ℤ := truncQ (maxQ lmarks)
    let dmin : ℚ := |(100 * ((ma : ℚ) - (mn : ℚ))) / (mn : ℚ)|
    let dmax : ℚ := |(100 * ((ma : ℚ) - (mx : ℚ))) / (mx : ℚ)|
    let davg : ℚ := |(100 * ((ma : ℚ) - (avg : ℚ))) / (avg : ℚ)|
    let acc := { acc with nhit := acc.nhit + 1 }
    let acc :=
      if davg ≤ threshold ∧ ¬(dmin ≤ threshold ∧ dmax ≤ threshold) then
        { acc with weird := acc.weird + 1 }
      else acc
    if davg ≤ threshold then { acc with ncorrect := acc.ncorrect + 1 }
    else { acc with nfalse := acc.nfalse + 1 }
  else
    { acc with nmiss := acc.nmiss + 1, missed := acc.missed ++ [(p.1, p.2)] }

/-- The initial counters of `CpuAssessor.test` (lines 191-195). -/
def initAgg : TestAgg :=
  ⟨0, 0, 0, 0, 0, fun _ => 0, [], []⟩

/-- `CpuAssessor.test` (lines 185-235) on an already-parsed historical
dataset: replay every name through `nmatch` and aggregate. -/
def evaluate (marks : Marks) (dataset : List (String × List (ℚ × String)))
    (threshold : ℚ) : TestAgg :=
  dataset.foldl (classifyStep marks threshold) initAgg

/-- The classification criterion the code applies to a hit (lines 204-219):
the mark is non-zero and the percentage deviation from the *truncated* mean
is within the threshold. -/
def hitCorrect (marks : Marks) (threshold : ℚ) (p : String × List (ℚ × String)) : Bool :=
  let ma := (nmatch marks p.1).1
  let avg : ℤ := truncQ ((p.2.map (·.1)).sum / (p.2.length : ℚ))
  decide (ma ≠ 0) && decide (|(100 * ((ma : ℚ) - (avg : ℚ))) / (avg : ℚ)| ≤ threshold)

/-- Modelled from the spec (claim C9): the absolute percentage deviation of
the predicted mark from the exact arithmetic mean of the observed marks.
This definition follows the spec words and exists only to be compared with
the truncated-mean deviation the code computes. -/
def specMeanDeviation (ma : ℤ) (obs : List ℚ) : ℚ :=
  |(100 * ((ma : ℚ) - obs.sum / (obs.length : ℚ))) / (obs.sum / (obs.length : ℚ))|

/-- The class-level construction guard (lines 47-57 and 87-89): the process
state is the already-built index, if any.  `CpuAssessor.__init__` runs `init`
— which returns immediately when the class is already initialized — and then
sets the flag.  A failed first build propagates its exception and leaves the
class uninitialized. -/
def constructCA (st : Option Marks) (rows : List Row) : Except BuildErr (Option Marks) :=
  match st with
  | some m => .ok (some m)
  | none => (buildMarks rows).map some

/-- The success payload of `get_mark_json` (lines 244-253). -/
structure MarkJsonOk where
  error : Bool
  mark : String
  cpustr : String
  hint : String
  cpuscsv : String
  linenum : String
  line : String
  details : List Diag
  deriving DecidableEq

/-- The JSON result of `get_mark_json`: either the success dict or the
`{"error": true, "message": str(e)}` dict of lines 254-258. -/
inductive GetMarkJson
  | ok (r : MarkJsonOk)
  | exn (message : String)
  deriving DecidableEq

/-- `os.path.basename`: the part after the last `/`. -/
def basename (p : String) : String :=
  ⟨(p.data.reverse.takeWhile (fun c => c != '/')).reverse⟩

/-- `str(e)` of the exceptions propagated out of the build (the `ValueError`
text is rendered without Python's repr quoting). -/
def errMsg : BuildErr → String
  | .nameColumn => "Unable to guess which column has the name of the CPU"
  | .markColumn => "Unable to guess which column has the mark of the CPU"
  | .markParse v => "invalid literal for int() with base 10: " ++ v

/-- `get_mark_json` (lines 238-260): construct a `CpuAssessor` on the rows of
`marksfile` (a no-op when the process is already initialized), assess, and
assemble the result dict; any exception becomes the error dict.  `fs` maps a
file name to its parsed rows.  Returns the new process state and the result. -/
def get_mark_json (fs : String → List Row) (st : Option Marks)
    (cpu_str marksfile : String) : Option Marks × GetMarkJson :=
  match constructCA st (fs marksfile) with
  | .error e => (st, .exn (errMsg e))
  | .ok none => (st, .exn "Class CpuAssessor must be initialized before use")
  | .ok (some m) =>
    let r := nmatch m cpu_str
    (some m,
      .ok
        ⟨false, toString r.1, cpu_str, r.2.1.1.name, basename marksfile,
          toString r.2.1.2.1, r.2.1.2.2, r.2.2⟩)


/-- A token string as produced by the tokenizer: non-empty, free of
separator characters, and a fixed point of the per-token transform (feeding
it back through `tokStep` reproduces exactly itself). -/
def GoodTok (x : String) : Prop :=
  x.data ≠ [] ∧ (∀ c ∈ x.data, isSepC c = false) ∧ tokStep ∅ x.data = {x}

/-- Decidable equality of build results, for concrete evaluations. -/
instance exceptDecEq {ε α : Type} [DecidableEq ε] [DecidableEq α] :
    DecidableEq (Except ε α) := fun x y =>
  match x, y with
  | .ok a, .ok b =>
    if h : a = b then .isTrue (by rw [h])
    else .isFalse (fun hc => h (by injection hc))
  | .error e, .error f =>
    if h : e = f then .isTrue (by rw [h])
    else .isFalse (fun hc => h (by injection hc))
  | .ok _, .error _ => .isFalse (fun hc => Except.noConfusion hc)
  | .error _, .ok _ => .isFalse (fun hc => Except.noConfusion hc)

/-! ## Theorems

The rational-number operations of Batteries are `@[irreducible]`, which would
keep `decide` from evaluating the calibration arithmetic on concrete inputs;
they are unsealed here for the concrete evaluations below. -/

unseal Rat.add Rat.mul Rat.inv Rat.sub

/-- Claim C2, counterexample.  Build the index from the single reference row
`"Intel(R) Core(TM) i7-7500U CPU @ 2.70GHz;3641"` and match the query equal
to the canonical name: the claim announces tier SIMPLE_1, but the exact-index
key still carries the `(R)`/`(TM)`/` CPU` markers the normalized query has
lost, so SIMPLE_1 misses and the cascade only succeeds at CLEVER_2. -/
theorem c2_counterexample :
    buildMarks [[("name", "Intel(R) Core(TM) i7-7500U CPU @ 2.70GHz"), ("cpumark", "3641")]] =
      .ok [("Intel(R) Core(TM) i7-7500U CPU @ 2.70GHz", ((3641 : Int), 2))] ∧
    (nmatch [("Intel(R) Core(TM) i7-7500U CPU @ 2.70GHz", ((3641 : Int), 2))]
        "Intel(R) Core(TM) i7-7500U CPU @ 2.70GHz").2.1.1 ≠ MatchStep.SIMPLE_1 := by
  decide

/-- Claim C2, amended: on that index the query resolves at tier CLEVER_2 with
mark 3641 (source line 2, matched against the full canonical name). -/
theorem c2_amended :
    nmatch [("Intel(R) Core(TM) i7-7500U CPU @ 2.70GHz", ((3641 : Int), 2))]
        "Intel(R) Core(TM) i7-7500U CPU @ 2.70GHz" =
      (3641, (MatchStep.CLEVER_2, 2, "Intel(R) Core(TM) i7-7500U CPU @ 2.70GHz"), []) := by
  decide

/-- Claim C3, counterexample.  Two independent failures on one index:
`"Intel A"` is a key of the exact index without `@` (mark 20), yet the query
`"Intel A"` collides with the `@`-stripped key of `"Intel A @ 2GHz"` and
returns SIMPLE_0 with the *other* record's mark 10; and `"Intel B, C"` is a
key without `@` whose comma makes the normalized query differ from the key,
so the match only succeeds at tier CLEVER_1 — neither SIMPLE_0 nor SIMPLE_1. -/
theorem c3_counterexample :
    dictGet [("Intel A @ 2GHz", ((10 : Int), 2)), ("Intel A", ((20 : Int), 3)),
        ("Intel B, C", ((5 : Int), 4))] "Intel A" = some (20, 3) ∧
    containsSub "@".data "Intel A".data = false ∧
    (nmatch [("Intel A @ 2GHz", ((10 : Int), 2)), ("Intel A", ((20 : Int), 3)),
        ("Intel B, C", ((5 : Int), 4))] "Intel A").2.1.1 = MatchStep.SIMPLE_0 ∧
    (nmatch [("Intel A @ 2GHz", ((10 : Int), 2)), ("Intel A", ((20 : Int), 3)),
        ("Intel B, C", ((5 : Int), 4))] "Intel A").1 = 10 ∧
    dictGet [("Intel A @ 2GHz", ((10 : Int), 2)), ("Intel A", ((20 : Int), 3)),
        ("Intel B, C", ((5 : Int), 4))] "Intel B, C" = some (5, 4) ∧
    containsSub "@".data "Intel B, C".data = false ∧
    (nmatch [("Intel A @ 2GHz", ((10 : Int), 2)), ("Intel A", ((20 : Int), 3)),
        ("Intel B, C", ((5 : Int), 4))] "Intel B, C").2.1.1 = MatchStep.CLEVER_1 := by
  decide

/-- Claim C7, counterexample.  A dataset whose rows carry no recognized mark
alias at all ("all recognized aliases of either field are absent") builds
successfully: the mark column is only consulted for vendor-qualified rows,
and this row's name lacks a vendor marker, so `init` completes with an empty
index instead of failing with a configuration error. -/
theorem c7_counterexample :
    getMarkCol [("name", "foo")] = none ∧
    buildMarks [[("name", "foo")]] = .ok [] := by
  decide

/-- Claim C8, counterexample.  A vendor-qualified row whose mark does not
parse (`int("abc")` raises an uncaught `ValueError`) aborts the whole build:
the second, perfectly valid row — which alone would be indexed — is never
reached, contradicting "skips only that row and still completes". -/
theorem c8_counterexample :
    buildMarks [[("name", "Intel A"), ("cpumark", "abc")],
        [("name", "Intel B"), ("cpumark", "5")]] = .error (.markParse "abc") ∧
    buildMarks [[("name", "Intel B"), ("cpumark", "5")]] = .ok [("Intel B", (5, 2))] := by
  decide

/-- Claim C9, counterexample.  Predicted mark 2 for observed marks `[1, 2]`
at threshold 50: the deviation from the exact arithmetic mean 3/2 is
100/3 ≤ 50, so the claim classifies the hit as correct; the code truncates
the mean to 1, computes a 100% deviation and records a statistical miss
(`ncorrect` stays 0, `nfalse` becomes 1). -/
theorem c9_counterexample :
    (evaluate [("Intel X", ((2 : Int), 2))] [("Intel X", [((1 : ℚ), "a"), ((2 : ℚ), "b")])]
        50).ncorrect = 0 ∧
    (evaluate [("Intel X", ((2 : Int), 2))] [("Intel X", [((1 : ℚ), "a"), ((2 : ℚ), "b")])]
        50).nfalse = 1 ∧
    (nmatch [("Intel X", ((2 : Int), 2))] "Intel X").1 = 2 ∧
    specMeanDeviation 2 [1, 2] ≤ 50 := by
  decide


/-- Claim C1: each candidate-set tier (CLEVER_1, CLEVER_2, CLEVER_3_1 — the
spec's CLEVER_3_EXACT_SUBSET — and DESPERATE_1, the spec's
DESPERATE_MODELCODE) is returned only when its computed candidate list has
exactly one element; contrapositively, an empty or multi-element candidate
set at such a tier makes the cascade fall through to a later strategy or to
FAILED. -/
theorem c1_candidate_tiers_singleton (marks : Marks) (q : String) (t : MatchStep)
    (ht : t ∈ [MatchStep.CLEVER_1, MatchStep.CLEVER_2, MatchStep.CLEVER_3_1,
      MatchStep.DESPERATE_1])
    (h : (nmatch marks q).2.1.1 = t) :
    (candsOf marks q t).length = 1 := by
  unfold nmatch at h
  dsimp only at h
  split_ifs at h <;> first
    | (simp only at h; subst h; simp_all [candsOf])
    | (split at h <;> simp only at h <;> subst h <;> simp_all [candsOf])

/-- Claim C1, witness: a one-entry index whose key token set is contained in
the query token set, so the cascade accepts at CLEVER_1 on a singleton
candidate list. -/
theorem c1_candidate_tiers_singleton_witness :
    (candsOf [("Intel B, C", ((5 : Int), 2))] "Intel B, C" MatchStep.CLEVER_1).length = 1 :=
  c1_candidate_tiers_singleton [("Intel B, C", ((5 : Int), 2))] "Intel B, C"
    MatchStep.CLEVER_1 (by decide) (by decide)

/-- Claim C4: a FAILED result carries mark 0, an empty matched name and the
non-empty diagnostics of line 174 — the stripped query with its token set
followed by each intermediate candidate list — while every non-FAILED result
carries an empty diagnostics list (stated as the first disjunction). -/
theorem c4_failed_diagnostics (marks : Marks) (q : String) :
    ((nmatch marks q).2.1.1 = MatchStep.FAILED ∨ (nmatch marks q).2.2 = []) ∧
    ((nmatch marks q).2.1.1 = MatchStep.FAILED →
      (nmatch marks q).1 = 0 ∧ (nmatch marks q).2.1.2.2 = "" ∧
      (nmatch marks q).2.2 = failDet marks q ∧ (nmatch marks q).2.2 ≠ []) := by
  unfold nmatch
  dsimp only
  split_ifs <;> (try split) <;> constructor <;> simp [failDet]

/-- Claim C4, witness: on an empty index every strategy is ambiguous-empty,
the query fails, and the FAILED implication of the theorem applies. -/
theorem c4_failed_diagnostics_witness :
    (nmatch ([] : Marks) "zzz").1 = 0 ∧ (nmatch ([] : Marks) "zzz").2.1.2.2 = "" ∧
    (nmatch ([] : Marks) "zzz").2.2 = failDet [] "zzz" ∧
    (nmatch ([] : Marks) "zzz").2.2 ≠ [] :=
  (c4_failed_diagnostics [] "zzz").2 (by decide)

/-- Claim C3, amended: a key of the exact index with no `@`, a non-zero mark,
no colliding entry in the no-frequency index, and on which Normalizer steps
1-4 act as the identity, is matched at tier SIMPLE_1 with exactly its stored
mark.  (The data model of the spec already requires marks to be positive;
zero-mark entries are invisible to the truthiness test of line 125.) -/
theorem c3_amended (marks : Marks) (k : String) (mk : Int) (ln : Nat)
    (hget : dictGet marks k = some (mk, ln))
    (_hat : containsSub "@".data k.data = false)
    (hnoat : dictGet (marksnoat marks) k = none)
    (hfix : normalize14 k = k)
    (hmk : mk ≠ 0) :
    nmatch marks k = (mk, (MatchStep.SIMPLE_1, ln, k), []) := by
  unfold nmatch
  dsimp only
  rw [hnoat, hfix, hget]
  simp [hmk]

/-- Claim C3, amended, witness: the one-key index `"Intel A" ↦ (20, 2)`
satisfies every hypothesis and is matched at SIMPLE_1 with mark 20. -/
theorem c3_amended_witness :
    nmatch [("Intel A", ((20 : Int), 2))] "Intel A" =
      (20, (MatchStep.SIMPLE_1, 2, "Intel A"), []) :=
  c3_amended [("Intel A", ((20 : Int), 2))] "Intel A" 20 2
    (by decide) (by decide) (by decide) (by decide) (by decide)

/-- Helper: the greedy vendor regex of line 119 keeps the suffix at the
*last* position where a vendor marker begins, and finds one whenever any
position carries a marker. -/
theorem vendorKeep_last (s : List Char) :
    (vendorKeep s = none → ∀ i, vendorHead (List.drop i s) = false) ∧
    (∀ k, vendorKeep s = some k →
      ∃ j, k = List.drop j s ∧ vendorHead (List.drop j s) = true ∧
        ∀ i, vendorHead (List.drop i s) = true → i ≤ j) := by
  induction s with
  | nil =>
    constructor
    · intro _ i
      simp [List.drop_nil, vendorHead, List.isPrefixOf]
    · intro k hk
      simp [vendorKeep] at hk
  | cons c rest ih =>
    constructor
    · intro hnone i
      unfold vendorKeep at hnone
      cases hrest : vendorKeep rest with
      | some k => rw [hrest] at hnone; exact absurd hnone (by simp)
      | none =>
        rw [hrest] at hnone
        match i with
        | 0 =>
          by_cases hv : vendorHead (c :: rest) = true
          · rw [if_pos hv] at hnone; exact absurd hnone (by simp)
          · simpa using hv
        | i + 1 =>
          rw [List.drop_succ_cons]
          exact (ih.1 hrest) i
    · intro k hk
      unfold vendorKeep at hk
      cases hrest : vendorKeep rest with
      | some k2 =>
        rw [hrest] at hk
        simp only [Option.some.injEq] at hk
        subst hk
        obtain ⟨j, hj1, hj2, hj3⟩ := ih.2 k2 hrest
        refine ⟨j + 1, ?_, ?_, ?_⟩
        · rw [List.drop_succ_cons]; exact hj1
        · rw [List.drop_succ_cons]; exact hj2
        · intro i hi
          match i with
          | 0 => omega
          | i + 1 =>
            rw [List.drop_succ_cons] at hi
            exact Nat.succ_le_succ (hj3 i hi)
      | none =>
        rw [hrest] at hk
        by_cases hv : vendorHead (c :: rest) = true
        · rw [if_pos hv] at hk
          simp only [Option.some.injEq] at hk
          subst hk
          refine ⟨0, rfl, hv, ?_⟩
          intro i hi
          match i with
          | 0 => omega
          | i + 1 =>
            rw [List.drop_succ_cons] at hi
            exact absurd hi (by simp [ih.1 hrest i])
        · rw [if_neg hv] at hk
          exact absurd hk (by simp)

/-- Claim C5, counterexample.  `"Intel A Intel B"` contains two vendor-marker
occurrences; the claim says the vendor step keeps the suffix from the first
one — the whole string, as the spec-side `vendorFirst` computes — but the
greedy `.*` of line 119 makes the code keep the suffix from the *last*
occurrence, `"Intel B"`. -/
theorem c5_counterexample :
    vendorStep "Intel A Intel B" = "Intel B" ∧
    vendorFirst "Intel A Intel B".data = some "Intel A Intel B".data ∧
    ("Intel B" : String) ≠ "Intel A Intel B" := by
  decide

/-- Claim C5, amended: for every input containing a vendor marker, the
vendor step of the Normalizer returns the suffix of the string starting at
the *last* occurrence of a vendor marker; in particular, for an input with
two vendor-marker occurrences the result begins at the later one. -/
theorem c5_amended (x : String) (i : Nat)
    (hi : vendorHead (List.drop i x.data) = true) :
    ∃ j, vendorStep x = ⟨List.drop j x.data⟩ ∧
      vendorHead (List.drop j x.data) = true ∧
      ∀ i2, vendorHead (List.drop i2 x.data) = true → i2 ≤ j := by
  cases hk : vendorKeep x.data with
  | none => exact absurd hi (by simp [(vendorKeep_last x.data).1 hk i])
  | some k =>
    obtain ⟨j, hj1, hj2, hj3⟩ := (vendorKeep_last x.data).2 k hk
    exact ⟨j, by simp [vendorStep, hk, hj1], hj2, hj3⟩

/-- Claim C5, amended, witness: applying the theorem to the two-occurrence
input at position 0 produces the last-occurrence suffix. -/
theorem c5_amended_witness :
    ∃ j, vendorStep "Intel A Intel B" = ⟨List.drop j "Intel A Intel B".data⟩ ∧
      vendorHead (List.drop j "Intel A Intel B".data) = true ∧
      ∀ i2, vendorHead (List.drop i2 "Intel A Intel B".data) = true → i2 ≤ j :=
  c5_amended "Intel A Intel B" 0 (by decide)

/-- Claim C7, amended: the name column is resolved through the alias chain
`name`, `NAME`, `CPUNAME` in that priority and the mark column through
`cpumark`, `CPUMARK`; a *non-empty* dataset whose rows carry no name alias
fails immediately with the name-column configuration error, and a dataset
whose rows carry no mark alias fails with the mark-column configuration
error *provided some row is vendor-qualified* (the mark column is only
consulted for vendor rows — see the counterexample); either error aborts the
whole build, no partial index being returned. -/
theorem c7_amended :
    (∀ (r : Row) (rest : List Row), getName r = none →
      buildMarks (r :: rest) = .error .nameColumn) ∧
    (∀ (rows : List Row) (line : Nat) (acc : Marks),
      (∀ r ∈ rows, (getName r).isSome) →
      (∀ r ∈ rows, getMarkCol r = none) →
      (∃ r ∈ rows, ∃ nam, getName r = some nam ∧ isVendor nam = true) →
      buildAux rows line acc = .error .markColumn) ∧
    (∀ (r : Row) (v : String), dictGet r "name" = some v → getName r = some v) ∧
    (∀ (r : Row) (v : String), dictGet r "name" = none →
      dictGet r "NAME" = some v → getName r = some v) ∧
    (∀ (r : Row), dictGet r "name" = none → dictGet r "NAME" = none →
      getName r = dictGet r "CPUNAME") ∧
    (∀ (r : Row) (v : String), dictGet r "cpumark" = some v → getMarkCol r = some v) ∧
    (∀ (r : Row), dictGet r "cpumark" = none → getMarkCol r = dictGet r "CPUMARK") := by
  refine ⟨?_, ?_, ?_, ?_, ?_, ?_, ?_⟩
  · intro r rest hname
    simp [buildMarks, buildAux, hname]
  · intro rows
    induction rows with
    | nil => intro line acc _ _ hex; simp at hex
    | cons r rest ih =>
      intro line acc hsome hmark hex
      obtain ⟨nam, hnam⟩ := Option.isSome_iff_exists.1 (hsome r (by simp))
      by_cases hv : isVendor nam = true
      · simp [buildAux, hnam, hv, hmark r (by simp)]
      · simp only [buildAux, hnam, hv, if_neg]
        refine ih (line + 1) acc (fun r2 h2 => hsome r2 (by simp [h2]))
          (fun r2 h2 => hmark r2 (by simp [h2])) ?_
        obtain ⟨r0, hr0, nam0, hnam0, hv0⟩ := hex
        rcases List.mem_cons.1 hr0 with h | h
        · subst h
          rw [hnam] at hnam0
          cases hnam0
          exact absurd hv0 hv
        · exact ⟨r0, h, nam0, hnam0, hv0⟩
  · intro r v h; simp [getName, h]
  · intro r v h1 h2; simp [getName, h1, h2]
  · intro r h1 h2; simp [getName, h1, h2]
  · intro r v h; simp [getMarkCol, h]
  · intro r h; simp [getMarkCol, h]

/-- Claim C7, amended, witness: a row without name alias triggers the
name-column error; a vendor-qualified row without mark alias triggers the
mark-column error; the alias priorities resolve as stated on concrete rows. -/
theorem c7_amended_witness :
    buildMarks [[("x", "1")]] = .error .nameColumn ∧
    buildAux [[("NAME", "Intel A")]] 2 [] = .error .markColumn ∧
    getName [("name", "a"), ("NAME", "b")] = some "a" ∧
    getName [("NAME", "b"), ("CPUNAME", "c")] = some "b" ∧
    getMarkCol [("CPUMARK", "9")] = dictGet [("CPUMARK", "9")] "CPUMARK" :=
  ⟨c7_amended.1 [("x", "1")] [] (by decide),
   c7_amended.2.1 [[("NAME", "Intel A")]] 2 [] (by decide) (by decide)
     ⟨[("NAME", "Intel A")], by decide, "Intel A", by decide, by decide⟩,
   c7_amended.2.2.1 [("name", "a"), ("NAME", "b")] "a" (by decide),
   c7_amended.2.2.2.1 [("NAME", "b"), ("CPUNAME", "c")] "b" (by decide) (by decide),
   c7_amended.2.2.2.2.2.2 [("CPUMARK", "9")] (by decide)⟩

/-- Claim C8, amended: a vendor-qualified row whose mark field does not parse
as a number aborts the whole build with the parse error carrying the
offending value — the `ValueError` of `int()` is caught nowhere, so the row
is *not* skipped and no other row is indexed; the only rows the build skips
while continuing are those whose name lacks a vendor marker. -/
theorem c8_amended :
    (∀ (r : Row) (rest : List Row) (line : Nat) (acc : Marks) (nam m : String),
      getName r = some nam → isVendor nam = true → getMarkCol r = some m →
      parseIntMark m = none →
      buildAux (r :: rest) line acc = .error (.markParse m)) ∧
    (∀ (r : Row) (rest : List Row) (line : Nat) (acc : Marks) (nam : String),
      getName r = some nam → isVendor nam = false →
      buildAux (r :: rest) line acc = buildAux rest (line + 1) acc) := by
  constructor
  · intro r rest line acc nam m hnam hv hm hparse
    simp [buildAux, hnam, hv, hm, hparse]
  · intro r rest line acc nam hnam hv
    simp [buildAux, hnam, hv]

/-- Claim C8, amended, witness: the unparsable vendor row aborts with its
value; the non-vendor row is skipped and the build continues. -/
theorem c8_amended_witness :
    buildAux [[("name", "Intel A"), ("cpumark", "abc")]] 2 [] = .error (.markParse "abc") ∧
    buildAux [[("name", "foo")], [("name", "Intel B"), ("cpumark", "5")]] 2 [] =
      buildAux [[("name", "Intel B"), ("cpumark", "5")]] 3 [] :=
  ⟨c8_amended.1 [[("name", "Intel A"), ("cpumark", "abc")]].head! [] 2 [] "Intel A" "abc"
     (by decide) (by decide) (by decide) (by decide),
   c8_amended.2 [("name", "foo")] [[("name", "Intel B"), ("cpumark", "5")]] 2 [] "foo"
     (by decide) (by decide)⟩

/-- Claim C10: once a first `CpuAssessor` has been fully constructed from the
rows of `f1` (hypothesis: that build succeeded, so the class flag is set),
every later construction returns the existing index whatever rows its own
file holds, and `get_mark_json` on any second file `f2` — with arbitrary
contents `fs2 f2` — computes the result entirely from the first file's index
`m` while still reporting `basename f2` in the `cpuscsv` field. -/
theorem c10_singleton_init (fs fs2 : String → List Row) (m : Marks)
    (cpu f1 f2 : String)
    (hbuild : buildMarks (fs f1) = .ok m) :
    constructCA none (fs f1) = .ok (some m) ∧
    (∀ rows2 : List Row, constructCA (some m) rows2 = .ok (some m)) ∧
    get_mark_json fs2 (some m) cpu f2 =
      (some m,
        .ok
          ⟨false, toString (nmatch m cpu).1, cpu, (nmatch m cpu).2.1.1.name,
            basename f2, toString (nmatch m cpu).2.1.2.1,
            (nmatch m cpu).2.1.2.2, (nmatch m cpu).2.2⟩) := by
  refine ⟨?_, fun rows2 => rfl, ?_⟩
  · simp [constructCA, hbuild, Except.map]
  · simp [get_mark_json, constructCA]

/-- Claim C10, witness: build from a one-row file, then query through a
second file with different contents; the mark comes from the first file's
index and `cpuscsv` is the second file's basename. -/
theorem c10_singleton_init_witness :
    constructCA none [[("name", "Intel A"), ("cpumark", "7")]] =
      .ok (some [("Intel A", (7, 2))]) ∧
    (∀ rows2 : List Row,
      constructCA (some [("Intel A", ((7 : Int), 2))]) rows2 =
        .ok (some [("Intel A", (7, 2))])) ∧
    get_mark_json (fun _ => [[("name", "Intel Z"), ("cpumark", "999")]])
        (some [("Intel A", ((7 : Int), 2))]) "Intel A" "b/c.csv" =
      (some [("Intel A", ((7 : Int), 2))],
        .ok
          ⟨false, toString (nmatch [("Intel A", ((7 : Int), 2))] "Intel A").1, "Intel A",
            (nmatch [("Intel A", ((7 : Int), 2))] "Intel A").2.1.1.name, basename "b/c.csv",
            toString (nmatch [("Intel A", ((7 : Int), 2))] "Intel A").2.1.2.1,
            (nmatch [("Intel A", ((7 : Int), 2))] "Intel A").2.1.2.2,
            (nmatch [("Intel A", ((7 : Int), 2))] "Intel A").2.2⟩) :=
  c10_singleton_init (fun _ => [[("name", "Intel A"), ("cpumark", "7")]])
    (fun _ => [[("name", "Intel Z"), ("cpumark", "999")]])
    [("Intel A", ((7 : Int), 2))] "Intel A" "a.csv" "b/c.csv" (by decide)

/-- Helper: one iteration of the calibration loop increments `ncorrect`
exactly when the hit satisfies the truncated-mean criterion of lines
204-219. -/
theorem classifyStep_ncorrect (marks : Marks) (t : ℚ) (acc : TestAgg)
    (p : String × List (ℚ × String)) :
    (classifyStep marks t acc p).ncorrect =
      acc.ncorrect + (if hitCorrect marks t p = true then 1 else 0) := by
  unfold classifyStep hitCorrect
  dsimp only
  split_ifs <;> simp_all [apply_ite (TestAgg.ncorrect)] <;> linarith

/-- Helper: the fold of the calibration loop counts `ncorrect` as the number
of dataset entries satisfying the per-hit criterion. -/
theorem evaluate_ncorrect_go (marks : Marks) (t : ℚ)
    (ds : List (String × List (ℚ × String))) :
    ∀ acc : TestAgg,
      (ds.foldl (classifyStep marks t) acc).ncorrect =
        acc.ncorrect + (ds.filter (hitCorrect marks t)).length := by
  induction ds with
  | nil => intro acc; simp
  | cons p rest ih =>
    intro acc
    rw [List.foldl_cons, ih (classifyStep marks t acc p), classifyStep_ncorrect,
      List.filter_cons]
    by_cases hp : hitCorrect marks t p = true <;> simp [hp]
    omega

/-- Claim C9, amended: in the calibration harness a historical name with a
non-zero match mark is counted as correct exactly when the absolute
percentage deviation of the predicted mark from the *integer-truncated*
arithmetic mean of the observed marks is within the threshold (the code
applies `int()` to the mean before comparing — see the counterexample for a
dataset where this differs from the exact mean); on the spec's scenario —
observed marks [3641, 3635, 3630], predicted mark 3638, threshold 3.0 — the
name is classified correct. -/
theorem c9_amended :
    (∀ (marks : Marks) (dataset : List (String × List (ℚ × String))) (threshold : ℚ),
      (evaluate marks dataset threshold).ncorrect =
        (dataset.filter (hitCorrect marks threshold)).length) ∧
    (evaluate [("Intel X", ((3638 : Int), 2))]
        [("Intel X", [((3641 : ℚ), "a"), ((3635 : ℚ), "b"), ((3630 : ℚ), "c")])]
        3).ncorrect = 1 := by
  constructor
  · intro marks dataset threshold
    rw [evaluate, evaluate_ncorrect_go]
    simp [initAgg]
  · decide

/-- Helper: membership in one tokenizer step splits into the accumulator and
the step's own contribution. -/
theorem mem_tokStep (x : String) (s : Finset String) (t : List Char) :
    x ∈ tokStep s t ↔ x ∈ s ∨ x ∈ tokStep ∅ t := by
  unfold tokStep
  by_cases h1 : (t.isEmpty || containsDuo t) = true
  · simp [h1]
  · rw [if_neg h1, if_neg h1]
    cases hd : decompose t with
    | none => simp [Finset.mem_insert]; tauto
    | some dl =>
      obtain ⟨d, l⟩ := dl
      dsimp only
      by_cases hp : pureDigits t = true
      · rw [if_pos hp, if_pos hp]; simp [Finset.mem_insert]; tauto
      · rw [if_neg hp, if_neg hp]
        simp [Finset.mem_union, Finset.mem_insert]; tauto

/-- Helper: membership in the tokenizer fold is membership in some token's
contribution. -/
theorem mem_foldl_tokStep (L : List (List Char)) :
    ∀ (acc : Finset String) (x : String),
      x ∈ L.foldl tokStep acc ↔ x ∈ acc ∨ ∃ t ∈ L, x ∈ tokStep ∅ t := by
  induction L with
  | nil => simp
  | cons t rest ih =>
    intro acc x
    rw [List.foldl_cons, ih, mem_tokStep]
    simp only [List.mem_cons]
    constructor
    · rintro (⟨hx | hx⟩ | ⟨t2, ht2, hx⟩)
      · exact Or.inl hx
      · exact Or.inr ⟨t, Or.inl rfl, hx⟩
      · exact Or.inr ⟨t2, Or.inr ht2, hx⟩
    · rintro (hx | ⟨t2, rfl | ht2, hx⟩)
      · exact Or.inl (Or.inl hx)
      · exact Or.inl (Or.inr hx)
      · exact Or.inr ⟨t2, ht2, hx⟩

/-- Helper: every token split off a name is non-empty and free of separator
characters. -/
theorem tokensGo_tokens (s : List Char) :
    ∀ cur : List Char, (∀ c ∈ cur, isSepC c = false) →
      ∀ t ∈ tokensGo cur s, t ≠ [] ∧ ∀ c ∈ t, isSepC c = false := by
  induction s with
  | nil =>
    intro cur hcur t ht
    unfold tokensGo at ht
    by_cases hc : cur.isEmpty = true
    · simp [hc] at ht
    · rw [if_neg hc] at ht
      simp only [List.mem_singleton] at ht
      subst ht
      refine ⟨by simpa [List.isEmpty_iff] using hc, ?_⟩
      intro c hcm
      exact hcur c (List.mem_reverse.mp hcm)
  | cons c rest ih =>
    intro cur hcur t ht
    unfold tokensGo at ht
    by_cases hsep : isSepC c = true
    · rw [if_pos hsep] at ht
      by_cases hc : cur.isEmpty = true
      · rw [if_pos hc] at ht
        exact ih [] (by simp) t ht
      · rw [if_neg hc] at ht
        rcases List.mem_cons.mp ht with h | h
        · subst h
          refine ⟨by simpa [List.isEmpty_iff] using hc, ?_⟩
          intro c2 hc2
          exact hcur c2 (List.mem_reverse.mp hc2)
        · exact ih [] (by simp) t h
    · rw [if_neg hsep] at ht
      refine ih (c :: cur) ?_ t ht
      intro c2 hc2
      rcases List.mem_cons.mp hc2 with h | h
      · subst h; simpa using hsep
      · exact hcur c2 h

/-- Helper: a digit is not a separator character. -/
theorem isSepC_eq_false_of_digit (c : Char) (h : c.isDigit = true) :
    isSepC c = false := by
  cases hs : isSepC c
  · rfl
  · exfalso
    unfold isSepC at hs
    simp only [Bool.or_eq_true, beq_iff_eq] at hs
    rcases hs with (((h1 | h1) | h1) | h1) | h1 <;> subst h1 <;>
      exact absurd h (by decide)

/-- Helper: a word character is not a separator character. -/
theorem isSepC_eq_false_of_word (c : Char) (h : isWordC c = true) :
    isSepC c = false := by
  cases hs : isSepC c
  · rfl
  · exfalso
    unfold isSepC at hs
    simp only [Bool.or_eq_true, beq_iff_eq] at hs
    rcases hs with (((h1 | h1) | h1) | h1) | h1 <;> subst h1 <;>
      exact absurd h (by decide)

/-- Helper: a string of digits never contains the substring `Duo`. -/
theorem containsDuo_of_digits (d : List Char) (h : ∀ c ∈ d, c.isDigit = true) :
    containsDuo d = false := by
  induction d with
  | nil => decide
  | cons c rest ih =>
    unfold containsDuo containsSub
    have hD : ('D' == c) = false := by
      cases hc : 'D' == c
      · rfl
      · exfalso
        have : 'D' = c := beq_iff_eq.mp hc
        subst this
        exact absurd (h 'D' (by simp)) (by decide)
    have : "Duo".data.isPrefixOf (c :: rest) = false := by
      show (('D' == c) && List.isPrefixOf ['u', 'o'] rest) = false
      rw [hD, Bool.false_and]
    rw [this, Bool.false_or]
    exact ih (fun c2 hc2 => h c2 (by simp [hc2]))

/-- Helper: a single character never contains the three-character substring
`Duo`. -/
theorem containsDuo_singleton (c : Char) : containsDuo [c] = false := by
  unfold containsDuo containsSub
  show (("Duo".data.isPrefixOf [c]) || containsSub "Duo".data []) = false
  have : "Duo".data.isPrefixOf [c] = false := by
    show (('D' == c) && List.isPrefixOf ['u', 'o'] []) = false
    rw [show List.isPrefixOf ['u', 'o'] ([] : List Char) = false from rfl,
      Bool.and_false]
  rw [this]
  decide

/-- Helper: the components of a successful digits-letters decomposition. -/
theorem decompose_eq_some (t d l : List Char) (h : decompose t = some (d, l)) :
    d = t.takeWhile (·.isDigit) ∧ l = t.dropWhile (·.isDigit) ∧
    d ≠ [] ∧ l ≠ [] ∧ l.all isWordC = true := by
  unfold decompose at h
  dsimp only at h
  split_ifs at h with hc
  · injection h with h2
    injection h2 with hd hl
    subst hd; subst hl
    simp only [Bool.and_eq_true, Bool.not_eq_true', List.isEmpty_eq_false] at hc
    exact ⟨rfl, rfl, hc.1.1, hc.1.2, hc.2⟩

/-- Helper: a non-empty all-digits token has no digits-letters
decomposition (the letter part would be empty). -/
theorem decompose_of_digits (d : List Char) (h : ∀ c ∈ d, c.isDigit = true) :
    decompose d = none := by
  unfold decompose
  have hl : d.dropWhile (·.isDigit) = [] := List.dropWhile_eq_nil_iff.mpr h
  simp [hl]

/-- Helper: a single character has no digits-letters decomposition. -/
theorem decompose_singleton (c : Char) : decompose [c] = none := by
  unfold decompose
  by_cases hc : c.isDigit = true <;> simp [List.takeWhile, List.dropWhile, hc]

/-- Helper: every element of a tokenizer output is a good token: non-empty,
separator-free, and reproduced exactly by a second tokenizer pass. -/
theorem keytoset_good (k x : String) (hx : x ∈ keytoset k) : GoodTok x := by
  unfold keytoset at hx
  rw [mem_foldl_tokStep] at hx
  rcases hx with hx | ⟨t, ht, hxt⟩
  · exact absurd hx (Finset.not_mem_empty x)
  · obtain ⟨htne, htsep⟩ := tokensGo_tokens k.data [] (by simp) t ht
    have hte : t.isEmpty = false := by simpa [List.isEmpty_iff] using htne
    unfold tokStep at hxt
    by_cases h1 : (t.isEmpty || containsDuo t) = true
    · rw [if_pos h1] at hxt
      exact absurd hxt (Finset.not_mem_empty x)
    · rw [if_neg h1] at hxt
      cases hd : decompose t with
      | none =>
        rw [hd] at hxt
        simp only [Finset.mem_insert, Finset.not_mem_empty, or_false] at hxt
        subst hxt
        refine ⟨htne, htsep, ?_⟩
        unfold tokStep
        rw [if_neg h1, hd]
        simp
      | some dl =>
        obtain ⟨d, l⟩ := dl
        rw [hd] at hxt
        dsimp only at hxt
        obtain ⟨hdtake, hldrop, hdne, hlne, hlw⟩ := decompose_eq_some t d l hd
        by_cases hp : pureDigits t = true
        · rw [if_pos hp] at hxt
          simp only [Finset.mem_insert, Finset.not_mem_empty, or_false] at hxt
          subst hxt
          refine ⟨htne, htsep, ?_⟩
          unfold tokStep
          rw [if_neg h1, hd]
          dsimp only
          rw [if_pos hp]
          simp
        · rw [if_neg hp] at hxt
          have hddig : ∀ c ∈ d, c.isDigit = true := by
            intro c hc
            rw [hdtake] at hc
            exact List.mem_takeWhile_imp hc
          simp only [Finset.mem_union, Finset.mem_insert, Finset.not_mem_empty, or_false,
            List.mem_toFinset, List.mem_map] at hxt
          rcases hxt with hxd | ⟨c, hcl, hxc⟩
          · subst hxd
            refine ⟨hdne, fun c hc => isSepC_eq_false_of_digit c (hddig c hc), ?_⟩
            unfold tokStep
            rw [if_neg (by simp [List.isEmpty_iff, hdne, containsDuo_of_digits d hddig]),
              decompose_of_digits d hddig]
            simp
          · subst hxc
            have hcw : isWordC c = true := by
              have := List.all_eq_true.mp hlw c hcl
              simpa using this
            refine ⟨by simp, ?_, ?_⟩
            · intro c2 hc2
              simp only [List.mem_singleton] at hc2
              rw [hc2]
              exact isSepC_eq_false_of_word c hcw
            · unfold tokStep
              rw [if_neg (by simp [containsDuo_singleton]), decompose_singleton]
              simp

/-- Helper: splitting walks through a separator-free chunk by accumulating
it. -/
theorem tokensGo_append (t : List Char) :
    ∀ cur rest : List Char, (∀ c ∈ t, isSepC c = false) →
      tokensGo cur (t ++ rest) = tokensGo (t.reverse ++ cur) rest := by
  induction t with
  | nil => intro cur rest _; simp
  | cons c t2 ih =>
    intro cur rest h
    have hc : isSepC c = false := h c (by simp)
    show tokensGo cur (c :: (t2 ++ rest)) = tokensGo ((c :: t2).reverse ++ cur) rest
    rw [show (c :: t2).reverse ++ cur = t2.reverse ++ (c :: cur) by simp]
    rw [← ih (c :: cur) rest (fun c2 h2 => h c2 (by simp [h2]))]
    simp only [tokensGo]
    rw [if_neg (by simp [hc])]

/-- Helper: splitting the space-join of non-empty separator-free chunks
recovers exactly the chunks. -/
theorem splitToks_joinSpace (L : List (List Char))
    (h : ∀ t ∈ L, t ≠ [] ∧ ∀ c ∈ t, isSepC c = false) :
    splitToks (joinSpace L) = L := by
  induction L with
  | nil => rfl
  | cons t rest ih =>
    obtain ⟨htne, htsep⟩ := h t (by simp)
    cases rest with
    | nil =>
      show splitToks (joinSpace [t]) = [t]
      have hj : joinSpace [t] = t ++ [] := by simp [joinSpace]
      rw [hj]
      show tokensGo [] (t ++ []) = [t]
      rw [tokensGo_append t [] [] htsep]
      simp only [tokensGo]
      rw [if_neg (by simp [List.isEmpty_iff, htne])]
      simp
    | cons t2 rest2 =>
      have hj : joinSpace (t :: t2 :: rest2) = t ++ (' ' :: joinSpace (t2 :: rest2)) := by
        simp [joinSpace]
      show splitToks (joinSpace (t :: t2 :: rest2)) = t :: t2 :: rest2
      rw [hj]
      show tokensGo [] (t ++ (' ' :: joinSpace (t2 :: rest2))) = t :: t2 :: rest2
      rw [tokensGo_append t [] _ htsep]
      simp only [tokensGo]
      rw [if_pos (by decide), if_neg (by simp [List.isEmpty_iff, htne])]
      have hrest := ih (fun t3 h3 => h t3 (by simp [h3]))
      show _ :: tokensGo [] (joinSpace (t2 :: rest2)) = _
      rw [show tokensGo [] (joinSpace (t2 :: rest2)) = splitToks (joinSpace (t2 :: rest2)) from rfl,
        hrest]
      simp

/-- Claim C6: `Tokenize` is idempotent on its own output — tokenizing the
space-joined sorted elements of `Tokenize(name)` yields exactly
`Tokenize(name)`, for every name.  Every produced token is non-empty, free
of the separator characters, free of `Duo`, and a fixed point of the
digit-letter splitting, so re-splitting the join reproduces the set. -/
theorem c6_tokenize_idempotent (k : String) :
    keytoset (joinSorted (keytoset k)) = keytoset k := by
  have hgood : ∀ s ∈ (keytoset k).sort (· ≤ ·), GoodTok s :=
    fun s hs => keytoset_good k s (Finset.mem_sort (α := String) (· ≤ ·) |>.mp hs)
  have hmap : ∀ t ∈ ((keytoset k).sort (· ≤ ·)).map String.data,
      t ≠ [] ∧ ∀ c ∈ t, isSepC c = false := by
    intro t ht
    obtain ⟨s, hs, rfl⟩ := List.mem_map.mp ht
    exact ⟨(hgood s hs).1, (hgood s hs).2.1⟩
  show (splitToks (joinSorted (keytoset k)).data).foldl tokStep ∅ = keytoset k
  have hdata : (joinSorted (keytoset k)).data =
      joinSpace (((keytoset k).sort (· ≤ ·)).map String.data) := rfl
  rw [hdata, splitToks_joinSpace _ hmap]
  ext x
  rw [mem_foldl_tokStep]
  simp only [Finset.not_mem_empty, false_or, List.mem_map]
  constructor
  · rintro ⟨t, ⟨s, hs, rfl⟩, hx⟩
    rw [(hgood s hs).2.2] at hx
    rw [Finset.mem_singleton.mp hx]
    exact Finset.mem_sort (α := String) (· ≤ ·) |>.mp hs
  · intro hx
    have hs : x ∈ (keytoset k).sort (· ≤ ·) :=
      Finset.mem_sort (α := String) (· ≤ ·) |>.mpr hx
    refine ⟨x.data, ⟨x, hs, rfl⟩, ?_⟩
    rw [(hgood x hs).2.2]
    exact Finset.mem_singleton_self x
